import Mathlib

/-!
Verification of the meeting-assistant backend's persistence layer
(`backend/app/db.py`) and transcript-processing pipeline
(`backend/app/transcript_processor.py`).

Python strings are modelled as `List Char` (`PyStr`); the SQLite tables are
modelled as lists of row structures, with the cross-call connection state
threaded explicitly.  Operations that can raise return `Except PyStr`; an
`Except.error` result corresponds to a Python exception after transaction
rollback, so the pre-call state is the state observed by later readers.
Python `float` parameters (`processing_time`) are stored untouched by the
code, so they are modelled by an opaque integer payload; the two fractional
literals `0.5` and `0.7` appearing in comparisons are modelled by the exact
rationals they denote in the source text (`2 * x < n` and `10 * x < 7 * n`).
-/

abbrev PyStr := List Char

/-- Python's `str.isspace` set for the ASCII characters `str.strip` removes. -/
def pyIsSpace (c : Char) : Bool :=
  c = ' ' || c = '\t' || c = '\n' || c = '\r' || c = '\x0b' || c = '\x0c'

/-- Python `str.lstrip()`. -/
def pyStripL (s : PyStr) : PyStr := s.dropWhile pyIsSpace

/-- Python `str.rstrip()`. -/
def pyStripR (s : PyStr) : PyStr := (s.reverse.dropWhile pyIsSpace).reverse

/-- Python `str.strip()`. -/
def pyStrip (s : PyStr) : PyStr := pyStripR (pyStripL s)

/-- Python `str.lower()` (ASCII). -/
def pyLower (s : PyStr) : PyStr := s.map Char.toLower

/-- Python `str.upper()` (ASCII). -/
def pyUpper (s : PyStr) : PyStr := s.map Char.toUpper

/-- Worker for `pySplit`: `acc` holds the reversed characters of the word
currently being read. -/
def pySplitAux : PyStr → PyStr → List PyStr
  | [], acc => if acc.isEmpty then [] else [acc.reverse]
  | c :: rest, acc =>
    if pyIsSpace c then
      if acc.isEmpty then pySplitAux rest [] else acc.reverse :: pySplitAux rest []
    else
      pySplitAux rest (c :: acc)

/-- Python `str.split()` with no argument: split on runs of whitespace,
discarding empty fields. -/
def pySplit (s : PyStr) : List PyStr := pySplitAux s []

/-- Python's `sub in s` substring test. -/
def pyInStr (sub : PyStr) : PyStr → Bool
  | [] => sub.isEmpty
  | c :: rest => sub.isPrefixOf (c :: rest) || pyInStr sub rest

/-- Byte-wise (code-point) lexicographic order, as SQLite's default `ORDER BY`
comparison on `TEXT` columns. -/
def strLe : PyStr → PyStr → Bool
  | [], _ => true
  | _ :: _, [] => false
  | a :: as, b :: bs =>
    if a.val < b.val then true else if b.val < a.val then false else strLe as bs

/-- Normalize one bound of a Python slice `s[lo:hi]` on a string of length `n`. -/
def pySliceBound (n : Nat) (i : Int) : Nat :=
  if i < 0 then (max 0 ((n : Int) + i)).toNat else min i.toNat n

/-- Python slice `s[lo:hi]`. -/
def pySlice (s : PyStr) (lo hi : Int) : PyStr :=
  (s.take (pySliceBound s.length hi)).drop (pySliceBound s.length lo)

/-! ## JSON-serializable Python values

`db.update_process` stores `result`/`metadata` dicts as their `json.dumps`
text.  The encoding is injective on serializable values, so the stored TEXT
column is modelled by the dict value itself; `vobj` stands for a Python
object `json.dumps` rejects with `TypeError`. -/

inductive PyVal where
  | vstr (s : PyStr)
  | vint (n : Int)
  | vbool (b : Bool)
  | vnone
  | vlist (items : List PyVal)
  | vdict (items : List (PyStr × PyVal))
  | vobj (objRepr : PyStr)

abbrev PyDict := List (PyStr × PyVal)

mutual

/-- Whether `json.dumps` succeeds on the value. -/
def PyVal.serializable : PyVal → Bool
  | .vlist items => serializableList items
  | .vdict items => serializableEntries items
  | .vobj _ => false
  | _ => true

def serializableList : List PyVal → Bool
  | [] => true
  | v :: vs => v.serializable && serializableList vs

def serializableEntries : List (PyStr × PyVal) → Bool
  | [] => true
  | (_, v) :: vs => v.serializable && serializableEntries vs

end

/-! ## Table rows (`db.py` `_legacy_init_db`) -/

/-- One row of `summary_processes`.  `chunk_count INTEGER DEFAULT 0` and
`processing_time REAL DEFAULT 0.0`; the stored real is never computed with,
so it is carried as an opaque `Int` payload. -/
structure ProcRow where
  meeting_id : PyStr
  status : PyStr
  created_at : PyStr
  updated_at : PyStr
  error : Option PyStr
  result : Option PyDict
  start_time : Option PyStr
  end_time : Option PyStr
  chunk_count : Int
  processing_time : Int
  metadata : Option PyDict

/-- One row of `transcript_chunks`. -/
structure BlobRow where
  meeting_id : PyStr
  meeting_name : Option PyStr
  transcript_text : PyStr
  model : PyStr
  model_name : PyStr
  chunk_size : Int
  overlap : Int
  created_at : PyStr

/-- One row of `transcripts`, restricted to the columns read by
`get_transcript_data` (`transcript`, `timestamp`); the playback-sync and
legacy summary columns are never read by the modelled operations. -/
structure SegRow where
  meeting_id : PyStr
  transcript : PyStr
  timestamp : PyStr

/-- The tables touched by the modelled `DatabaseManager` operations. -/
structure DBState where
  chunks : List BlobRow
  transcripts : List SegRow
  procs : List ProcRow

/-! ## `DatabaseManager.create_process` and the generic SQL upsert shape -/

/-- `UPDATE ... WHERE key = mid`, then `INSERT` when `total_changes == 0`
(the fresh connection makes `total_changes` the row count matched by the
`UPDATE`). -/
def sqlUpsert {α : Type} (key : α → PyStr) (mid : PyStr) (upd : α → α)
    (fresh : α) (st : List α) : List α :=
  let updated := st.map (fun r => if key r = mid then upd r else r)
  if st.any (fun r => key r = mid) then updated else updated ++ [fresh]

/-- The `SET` clause of `create_process`'s `UPDATE`. -/
def createProcessUpd (now : PyStr) (r : ProcRow) : ProcRow :=
  { r with status := "PENDING".data, updated_at := now, start_time := some now,
           error := none, result := none }

/-- The row inserted by `create_process` when no row matched; unset columns
take their schema defaults (`NULL`, `0`, `0.0`). -/
def createProcessFresh (mid now : PyStr) : ProcRow :=
  { meeting_id := mid, status := "PENDING".data, created_at := now,
    updated_at := now, error := none, result := none, start_time := some now,
    end_time := none, chunk_count := 0, processing_time := 0, metadata := none }

/-- `DatabaseManager.create_process` (the Python function also returns
`meeting_id`, which carries no information). -/
def create_process (st : List ProcRow) (mid now : PyStr) : List ProcRow :=
  sqlUpsert (fun r => r.meeting_id) mid (createProcessUpd now)
    (createProcessFresh mid now) st

/-! ## `DatabaseManager.update_process` -/

/-- `str(error).replace('\n', ' ').replace('\r', '')[:1000]`. -/
def sanitizeError (e : PyStr) : PyStr :=
  ((e.map (fun c => if c = '\n' then ' ' else c)).filter (fun c => c ≠ '\r')).take 1000

/-- `status.upper() in ['COMPLETED', 'FAILED']`. -/
def statusSetsEndTime (status : PyStr) : Bool :=
  pyUpper status = "COMPLETED".data || pyUpper status = "FAILED".data

/-- `if result:` — a supplied dict counts only when truthy (non-empty). -/
def dictSupplied : Option PyDict → Bool
  | some d => ¬ d.isEmpty
  | none => false

/-- A truthy `result` that `json.dumps` rejects aborts the whole update. -/
def resultAborts : Option PyDict → Bool
  | some d => ¬ d.isEmpty && ¬ serializableEntries d
  | none => false

/-- The `SET` clause built by `update_process`, applied to one matched row:
`status` and `updated_at` are always in `update_fields`; `result`, `error`
and `metadata` only when truthy (a non-serializable `metadata` is dropped
with a warning); `chunk_count`/`processing_time` whenever not `None`;
`end_time` when the status normalizes to COMPLETED/FAILED. -/
def applyProcUpdate (status : PyStr) (result : Option PyDict)
    (error : Option PyStr) (chunk_count : Option Int)
    (processing_time : Option Int) (metadata : Option PyDict) (now : PyStr)
    (r : ProcRow) : ProcRow :=
  { r with
    status := status
    updated_at := now
    result :=
      match result with
      | some d => if ¬ d.isEmpty && serializableEntries d then some d else r.result
      | none => r.result
    error :=
      match error with
      | some e => if ¬ e.isEmpty then some (sanitizeError e) else r.error
      | none => r.error
    chunk_count :=
      match chunk_count with
      | some n => n
      | none => r.chunk_count
    processing_time :=
      match processing_time with
      | some x => x
      | none => r.processing_time
    metadata :=
      match metadata with
      | some d => if ¬ d.isEmpty && serializableEntries d then some d else r.metadata
      | none => r.metadata
    end_time := if statusSetsEndTime status then some now else r.end_time }

/-- `DatabaseManager.update_process`.  A zero-row update (meeting not found)
is logged but not an error; a truthy non-serializable `result` raises
`ValueError` before the query executes, which rolls back the transaction. -/
def update_process (st : List ProcRow) (mid status : PyStr)
    (result : Option PyDict) (error : Option PyStr) (chunk_count : Option Int)
    (processing_time : Option Int) (metadata : Option PyDict) (now : PyStr) :
    Except PyStr (List ProcRow) :=
  if resultAborts result then
    Except.error "Result data cannot be JSON serialized".data
  else
    Except.ok (st.map (fun r =>
      if r.meeting_id = mid then
        applyProcUpdate status result error chunk_count processing_time
          metadata now r
      else r))

/-! ## `DatabaseManager.save_transcript` -/

/-- The `SET` clause of `save_transcript`'s `UPDATE`. -/
def saveTranscriptUpd (text model model_name : PyStr) (chunk_size overlap : Int)
    (now : PyStr) (r : BlobRow) : BlobRow :=
  { r with transcript_text := text, model := model, model_name := model_name,
           chunk_size := chunk_size, overlap := overlap, created_at := now }

/-- The row inserted by `save_transcript` when no row matched
(`meeting_name` is not in the insert column list, so it is `NULL`). -/
def saveTranscriptFresh (mid text model model_name : PyStr)
    (chunk_size overlap : Int) (now : PyStr) : BlobRow :=
  { meeting_id := mid, meeting_name := none, transcript_text := text,
    model := model, model_name := model_name, chunk_size := chunk_size,
    overlap := overlap, created_at := now }

/-- `DatabaseManager.save_transcript`: the four `ValueError` guards run
before the connection is opened, so a failed guard writes nothing. -/
def save_transcript (st : List BlobRow) (mid text model model_name : PyStr)
    (chunk_size overlap : Int) (now : PyStr) : Except PyStr (List BlobRow) :=
  if (pyStrip mid).isEmpty then
    Except.error "meeting_id cannot be empty".data
  else if (pyStrip text).isEmpty then
    Except.error "transcript_text cannot be empty".data
  else if chunk_size ≤ 0 ∨ overlap < 0 then
    Except.error "Invalid chunk_size or overlap values".data
  else if text.length > 10000000 then
    Except.error "Transcript text too large (>10MB)".data
  else
    Except.ok (sqlUpsert (fun r => r.meeting_id) mid
      (saveTranscriptUpd text model model_name chunk_size overlap now)
      (saveTranscriptFresh mid text model model_name chunk_size overlap now) st)

/-! ## `DatabaseManager.get_transcript_data` -/

/-- The two row dictionaries `get_transcript_data` can return: the
`transcript_chunks` row with the left-joined `summary_processes` columns, or
the synthesized segment dictionary. -/
inductive TDOut where
  | blobData (row : BlobRow) (status : Option PyStr) (result : Option PyDict)
      (error : Option PyStr)
  | segData (meeting_id : PyStr) (transcript_text : PyStr)
      (status : Option PyStr) (result : Option PyDict) (error : Option PyStr)

/-- `SELECT ... FROM summary_processes WHERE meeting_id = ?` / the left-join
columns: `fetchone` returns the first matching row. -/
def procJoin (st : DBState) (mid : PyStr) : Option ProcRow :=
  st.procs.find? (fun p => p.meeting_id = mid)

/-- The segment rows for a meeting in `ORDER BY timestamp ASC` order. -/
def sortedSegs (st : DBState) (mid : PyStr) : List SegRow :=
  List.insertionSort (fun a b => strLe a.timestamp b.timestamp = true)
    (st.transcripts.filter (fun r => r.meeting_id = mid))

/-- The fallback branch of `get_transcript_data`:
`"\n".join([row[0] for row in rows if row[0]])`, returned only when both the
row list and the joined text are truthy. -/
def segFallback (st : DBState) (mid : PyStr) : Option TDOut :=
  let rows := sortedSegs st mid
  if rows.isEmpty then none
  else
    let text := List.intercalate ['\n']
      ((rows.map (fun r => r.transcript)).filter (fun t => ¬ t.isEmpty))
    if text.isEmpty then none
    else
      let p := procJoin st mid
      some (.segData mid text (p.map (fun q => q.status))
        (p.bind (fun q => q.result)) (p.bind (fun q => q.error)))

/-- `DatabaseManager.get_transcript_data`. -/
def get_transcript_data (st : DBState) (mid : PyStr) : Option TDOut :=
  match st.chunks.find? (fun b => b.meeting_id = mid) with
  | some b =>
    if b.transcript_text.isEmpty then segFallback st mid
    else
      let p := procJoin st mid
      some (.blobData b (p.map (fun q => q.status))
        (p.bind (fun q => q.result)) (p.bind (fun q => q.error)))
  | none => segFallback st mid

/-- Modelled from the spec: the fallback text as the spec sentence words it —
"concatenating all Transcript Segment texts (ordered by timestamp ascending,
newline-joined)" — i.e. without the source's `if row[0]` filter.  Used only
to compare the spec's wording against `get_transcript_data`. -/
def specSegmentJoin (st : DBState) (mid : PyStr) : PyStr :=
  List.intercalate ['\n'] ((sortedSegs st mid).map (fun r => r.transcript))

/-! ## `DatabaseManager.save_api_key` (`settings` table, singleton row '1') -/

structure SettingsRow where
  provider : PyStr
  model : PyStr
  whisperModel : PyStr
  groqApiKey : Option PyStr
  openaiApiKey : Option PyStr
  anthropicApiKey : Option PyStr
  ollamaApiKey : Option PyStr
  geminiApiKey : Option PyStr

/-- The `UPDATE settings SET {api_key_name} = ?` column dispatch. -/
def apiKeyColumnSet (row : SettingsRow) (provider api_key : PyStr) : SettingsRow :=
  if provider = "openai".data then { row with openaiApiKey := some api_key }
  else if provider = "claude".data then { row with anthropicApiKey := some api_key }
  else if provider = "groq".data then { row with groqApiKey := some api_key }
  else if provider = "ollama".data then { row with ollamaApiKey := some api_key }
  else { row with geminiApiKey := some api_key }

/-- The row inserted when no settings row exists:
`('1', 'openai', 'gpt-4o-2024-11-20', 'large-v3', api_key)`. -/
def defaultSettingsInsert (provider api_key : PyStr) : SettingsRow :=
  apiKeyColumnSet
    { provider := "openai".data, model := "gpt-4o-2024-11-20".data,
      whisperModel := "large-v3".data, groqApiKey := none, openaiApiKey := none,
      anthropicApiKey := none, ollamaApiKey := none, geminiApiKey := none }
    provider api_key

/-- `DatabaseManager.save_api_key`: note that the given `api_key` is stored
verbatim — there is no masked-sentinel check in this function. -/
def save_api_key (st : Option SettingsRow) (api_key provider : PyStr) :
    Except PyStr (Option SettingsRow) :=
  if ¬ ([ "openai".data, "claude".data, "groq".data, "ollama".data,
          "gemini".data ].contains provider) then
    Except.error ("Invalid provider: ".data ++ provider)
  else
    match st with
    | some row => Except.ok (some (apiKeyColumnSet row provider api_key))
    | none => Except.ok (some (defaultSettingsInsert provider api_key))

/-! ## `DatabaseManager.save_jira_config` (`jira_settings`, singleton row '1') -/

structure JiraRow where
  url : PyStr
  email : PyStr
  api_token : PyStr
  default_project_key : Option PyStr
  default_issue_type : Option PyStr

/-- `not api_token or api_token.strip() == '' or api_token == '********'`. -/
def maskedToken : Option PyStr → Bool
  | none => true
  | some s => s.isEmpty || pyStrip s = [] || s = "********".data

/-- `DatabaseManager.save_jira_config`. -/
def save_jira_config (st : Option JiraRow) (url email : PyStr)
    (api_token : Option PyStr) (dpk dit : Option PyStr) :
    Except PyStr (Option JiraRow) :=
  if url.isEmpty ∨ email.isEmpty then
    Except.error "URL and Email are required".data
  else
    match st with
    | some existing =>
      if maskedToken api_token then
        if ¬ existing.api_token.isEmpty then
          Except.ok (some ⟨url, email, existing.api_token, dpk, dit⟩)
        else
          Except.error "API Token is required for new configuration".data
      else
        match api_token with
        | some tok => Except.ok (some ⟨url, email, tok, dpk, dit⟩)
        | none => Except.error "unreachable".data
    | none =>
      if maskedToken api_token then
        Except.error "API Token is required for new configuration".data
      else
        match api_token with
        | some tok => Except.ok (some ⟨url, email, tok, dpk, dit⟩)
        | none => Except.error "unreachable".data

/-! ## `TranscriptProcessor.process_transcript` — chunking step -/

/-- The clamped overlap: `overlap = max(0, chunk_size - 100)` when the first
stride `chunk_size - overlap` is non-positive. -/
def recomputedOverlap (chunk_size overlap : Int) : Int :=
  if chunk_size - overlap ≤ 0 then max 0 (chunk_size - 100) else overlap

/-- The stride actually used by the chunk loop. -/
def recomputedStride (chunk_size overlap : Int) : Int :=
  chunk_size - recomputedOverlap chunk_size overlap

/-- Python `range(0, stop, step)` for a positive step. -/
def pyRangeUp (stop step : Nat) : List Nat :=
  (List.range ((stop + step - 1) / step)).map (fun k => k * step)

/-- `chunks = [text[i:i+chunk_size] for i in range(0, len(text), step)]` with
the clamp of lines 246–251.  `none` models the `ValueError` Python's `range`
raises on a zero step; a negative step yields an empty range (the start `0`
never exceeds the non-negative stop). -/
def chunkTranscript (text : PyStr) (chunk_size overlap : Int) :
    Option (List PyStr) :=
  let step := recomputedStride chunk_size overlap
  if step = 0 then none
  else if step < 0 then some []
  else some ((pyRangeUp text.length step.toNat).map
    (fun i : Nat => pySlice text (i : Int) ((i : Int) + chunk_size)))

/-! ## `JiraTaskSuggestion` and its field validators -/

structure JiraTask where
  summary : PyStr
  description : PyStr
  priority : PyStr
  «type» : PyStr
  assignee : PyStr
  assignee_account_id : Option PyStr
  labels : Option (List PyStr)
  related_issues : Option (List PyStr)

/-- A word counted by `validate_summary`: `len(w) >= 2 and w[0].isalpha()`. -/
def wordOk (w : PyStr) : Bool :=
  decide (2 ≤ w.length) && (match w with | [] => false | c :: _ => c.isAlpha)

/-- `JiraTaskSuggestion.validate_summary`.  The pass condition
`valid_words >= len(words) * 0.5` is the exact rational `2 * valid ≥ len`. -/
def validateSummary (v : PyStr) : Except PyStr PyStr :=
  if v.isEmpty ∨ (pyStrip v).length < 10 then
    Except.error "Summary must be at least 10 characters".data
  else
    let words := pySplit v
    if words.length < 2 then
      Except.error "Summary must have at least 2 words".data
    else if 2 * (words.filter wordOk).length < words.length then
      Except.error "Summary contains too many invalid words".data
    else
      Except.ok (pyStrip v)

/-- `JiraTaskSuggestion.validate_description`. -/
def validateDescription (v : PyStr) : Except PyStr PyStr :=
  if v.isEmpty ∨ (pyStrip v).length < 20 then
    Except.error "Description must be at least 20 characters".data
  else
    Except.ok (pyStrip v)

def priorityTable : List (PyStr × PyStr) :=
  [ ("high".data, "High".data), ("highest".data, "Highest".data),
    ("critical".data, "Highest".data), ("medium".data, "Medium".data),
    ("normal".data, "Medium".data), ("low".data, "Low".data),
    ("lowest".data, "Lowest".data), ("minor".data, "Low".data) ]

/-- `JiraTaskSuggestion.validate_priority`: total, unrecognized values pass
through stripped. -/
def validatePriority (v : PyStr) : PyStr :=
  let v' := pyStrip v
  match priorityTable.lookup (pyLower v') with
  | some x => x
  | none => v'

def typeTable : List (PyStr × PyStr) :=
  [ ("bug".data, "Bug".data), ("defect".data, "Bug".data),
    ("error".data, "Bug".data), ("task".data, "Task".data),
    ("action item".data, "Task".data), ("story".data, "Story".data),
    ("user story".data, "Story".data), ("feature".data, "Story".data),
    ("epic".data, "Epic".data), ("improvement".data, "Improvement".data),
    ("enhancement".data, "Improvement".data) ]

/-- `JiraTaskSuggestion.validate_type`: total, unrecognized values pass
through stripped. -/
def validateType (v : PyStr) : PyStr :=
  let v' := pyStrip v
  match typeTable.lookup (pyLower v') with
  | some x => x
  | none => v'

/-- Constructing a `JiraTaskSuggestion`: pydantic runs the field validators;
any validator failure rejects the object. -/
def mkJiraTask (summary description priority ty assignee : PyStr)
    (aid : Option PyStr) (labels ris : Option (List PyStr)) :
    Except PyStr JiraTask :=
  match validateSummary summary with
  | Except.error e => Except.error e
  | Except.ok s =>
    match validateDescription description with
    | Except.error e => Except.error e
    | Except.ok d =>
      Except.ok ⟨s, d, validatePriority priority, validateType ty, assignee,
        aid, labels, ris⟩

/-- The invariant every pydantic-constructed `JiraTaskSuggestion` satisfies:
each stored field is a fixed point of its validator (validators return the
stripped/normalized value, so re-validation succeeds unchanged). -/
def ValidTask (t : JiraTask) : Prop :=
  validateSummary t.summary = Except.ok t.summary ∧
  validateDescription t.description = Except.ok t.description ∧
  validatePriority t.priority = t.priority ∧
  validateType t.«type» = t.«type»

/-! ## `TranscriptProcessor._is_valid_english` and `_post_process_tasks` -/

def commonWords : List PyStr :=
  [ "the".data, "a".data, "an".data, "is".data, "are".data, "was".data,
    "were".data, "be".data, "been".data, "to".data, "for".data, "and".data,
    "or".data, "but".data, "in".data, "on".data, "at".data, "with".data,
    "fix".data, "add".data, "update".data, "create".data, "implement".data,
    "bug".data, "error".data, "issue".data, "user".data, "system".data,
    "data".data, "page".data, "api".data, "not".data, "no".data ]

def isVowel (c : Char) : Bool :=
  c = 'a' || c = 'e' || c = 'i' || c = 'o' || c = 'u'

/-- The per-word test of `_is_valid_english`'s final loop; the comparison
`vowels > len(word) * 0.7` is the exact rational `10 * vowels > 7 * len`. -/
def wordVowelsOk (w : PyStr) : Bool :=
  if decide (3 < w.length) && ¬ commonWords.contains (pyLower w) then
    let vowels := ((pyLower w).filter isVowel).length
    ¬ (vowels = 0 || decide (7 * w.length < 10 * vowels))
  else true

/-- `TranscriptProcessor._is_valid_english`; the comparison
`alpha_count < len(text) * 0.7` is the exact rational
`10 * alpha < 7 * len`. -/
def isValidEnglish (text : PyStr) : Bool :=
  if text.isEmpty || decide (text.length < 5) then false
  else
    let words := pySplit text
    if decide (words.length < 2) then false
    else if (words.map pyLower).any (fun w => commonWords.contains w) then true
    else if 10 * (text.filter Char.isAlpha).length < 7 * text.length then false
    else words.all wordVowelsOk

def actionVerbs : List PyStr :=
  [ "fix".data, "implement".data, "add".data, "update".data, "create".data,
    "resolve".data, "investigate".data, "review".data, "remove".data,
    "refactor".data, "improve".data, "configure".data, "setup".data,
    "set up".data, "deploy".data, "migrate".data, "test".data, "debug".data,
    "optimize".data, "enable".data, "disable".data, "address".data ]

/-- `summary[0].upper() + summary[1:]` (guarded by `if summary`). -/
def pyCapFirst : PyStr → PyStr
  | [] => []
  | c :: rest => Char.toUpper c :: rest

/-- The body of `_post_process_tasks`'s loop for one task: `none` when the
gibberish filter drops the task (`continue`); on a post-processing exception
(a pydantic validation failure while building the cleaned task) the
original task is kept. -/
def postProcessOne (t : JiraTask) : Option JiraTask :=
  let summary0 := pyStrip t.summary
  if ¬ isValidEnglish summary0 then none
  else
    let firstWord := match pySplit summary0 with
      | [] => ([] : PyStr)
      | w :: _ => pyLower w
    let summary1 :=
      if actionVerbs.contains firstWord then summary0
      else if pyInStr "bug".data (pyLower t.«type») ||
              pyInStr "error".data (pyLower summary0) ||
              pyInStr "issue".data (pyLower summary0) then
        "Fix ".data ++ summary0
      else if pyInStr "outage".data (pyLower summary0) ||
              pyInStr "down".data (pyLower summary0) then
        "Resolve ".data ++ summary0
      else
        "Address ".data ++ summary0
    let summary2 := pyCapFirst summary1
    let issueType :=
      if pyLower t.«type» = "epic".data then
        if pyInStr "outage".data (pyLower summary2) ||
           pyInStr "bug".data (pyLower summary2) ||
           pyInStr "error".data (pyLower summary2) ||
           pyInStr "fix".data (pyLower summary2) then "Bug".data
        else "Task".data
      else t.«type»
    let descLower := pyLower t.description
    let priority :=
      if (pyInStr "outage".data descLower || pyInStr "blocking".data descLower ||
          pyInStr "down".data descLower || pyInStr "500".data descLower) &&
         [ "low".data, "lowest".data, "medium".data ].contains (pyLower t.priority)
      then "High".data
      else t.priority
    match mkJiraTask summary2 t.description priority issueType t.assignee
        t.assignee_account_id t.labels t.related_issues with
    | Except.ok cleaned => some cleaned
    | Except.error _ => some t

/-- `TranscriptProcessor._post_process_tasks`. -/
def postProcessTasks : List JiraTask → List JiraTask
  | [] => []
  | t :: rest =>
    match postProcessOne t with
    | none => postProcessTasks rest
    | some t' => t' :: postProcessTasks rest

/-! ## `TranscriptProcessor._strip_code_fence` -/

/-- `TranscriptProcessor._strip_code_fence`. -/
def stripCodeFence (payload : PyStr) : PyStr :=
  let trimmed := pyStrip payload
  if ¬ ("```".data.isPrefixOf trimmed) then trimmed
  else
    let t1 := trimmed.drop 3
    let t2 :=
      if "json".data.isPrefixOf (pyLower (pyStripL t1)) then (pyStripL t1).drop 4
      else t1
    let t3 :=
      if "```".data.isSuffixOf t2 then t2.take (t2.length - 3)
      else t2
    pyStrip t3

/-! # Theorems -/

/-! ## Generic facts about the upsert shape and row updates -/

theorem key_if_upd {α : Type} (key : α → PyStr) (mid : PyStr) (upd : α → α)
    (hupd : ∀ a, key (upd a) = key a) (r : α) :
    key (if key r = mid then upd r else r) = key r := by
  by_cases h : key r = mid <;> simp [h, hupd]

theorem filter_updMap_nil {α : Type} (key : α → PyStr) (mid : PyStr)
    (upd : α → α) (st : List α)
    (habs : ∀ r ∈ st, ¬ key r = mid) :
    (st.map (fun r => if key r = mid then upd r else r)).filter
      (fun r => key r = mid) = [] := by
  induction st with
  | nil => rfl
  | cons a as ih =>
    have ha : ¬ key a = mid := habs a (List.mem_cons_self a as)
    simp only [List.map_cons, List.filter_cons, ha, if_false, decide_eq_true_eq]
    exact ih (fun r hr => habs r (List.mem_cons_of_mem a hr))

theorem find?_eq_head?_filter {α : Type} (p : α → Bool) (l : List α) :
    l.find? p = (l.filter p).head? := by
  induction l with
  | nil => rfl
  | cons a as ih =>
    by_cases h : p a
    · rw [List.find?_cons_of_pos as h, List.filter_cons_of_pos h,
        List.head?_cons]
    · rw [List.find?_cons_of_neg as h, List.filter_cons_of_neg h, ih]

theorem sqlUpsert_filter {α : Type} (key : α → PyStr) (mid : PyStr)
    (upd : α → α) (fresh : α) (st : List α)
    (hupd : ∀ a, key (upd a) = key a) (hfresh : key fresh = mid)
    (hnd : (st.map key).Nodup) :
    (sqlUpsert key mid upd fresh st).filter (fun r => key r = mid) =
      [match st.find? (fun r => key r = mid) with
       | some r => upd r
       | none => fresh] := by
  unfold sqlUpsert
  by_cases hany : st.any (fun r => decide (key r = mid)) = true
  · simp only [hany, if_true]
    induction st with
    | nil => simp at hany
    | cons a as ih =>
      by_cases ha : key a = mid
      · have hnotin : ∀ r ∈ as, ¬ key r = mid := by
          intro r hr hkr
          have : key a ∈ as.map key := by
            rw [ha, ← hkr]; exact List.mem_map_of_mem key hr
          exact (List.nodup_cons.mp hnd).1 this
        simp only [List.map_cons, List.filter_cons, List.find?_cons, ha,
          if_true, decide_true_eq_true, hupd, decide_eq_true_eq]
        simp only [decide_eq_true_eq] at *
        simp [ha, hupd, filter_updMap_nil key mid upd as hnotin]
      · have hany' : as.any (fun r => decide (key r = mid)) = true := by
          simp only [List.any_cons, ha, decide_false_eq_false,
            Bool.false_or] at hany
          exact hany
        simp only [List.map_cons, List.filter_cons, List.find?_cons]
        simp only [ha, if_false, decide_false_eq_false]
        exact ih (List.nodup_cons.mp hnd).2 hany'
  · have habs : ∀ r ∈ st, ¬ key r = mid := by
      intro r hr hkr
      exact hany (List.any_eq_true.mpr ⟨r, hr, by simp [hkr]⟩)
    have hfind : st.find? (fun r => key r = mid) = none := by
      rw [List.find?_eq_none]
      intro r hr
      simp [habs r hr]
    simp only [hany, Bool.false_eq_true, if_false, hfind]
    rw [List.filter_append, filter_updMap_nil key mid upd st habs]
    simp [hfresh]

theorem sqlUpsert_find? {α : Type} (key : α → PyStr) (mid : PyStr)
    (upd : α → α) (fresh : α) (st : List α)
    (hupd : ∀ a, key (upd a) = key a) (hfresh : key fresh = mid)
    (hnd : (st.map key).Nodup) :
    (sqlUpsert key mid upd fresh st).find? (fun r => key r = mid) =
      some (match st.find? (fun r => key r = mid) with
            | some r => upd r
            | none => fresh) := by
  rw [find?_eq_head?_filter, sqlUpsert_filter key mid upd fresh st hupd hfresh hnd]
  rfl

theorem sqlUpsert_nodup {α : Type} (key : α → PyStr) (mid : PyStr)
    (upd : α → α) (fresh : α) (st : List α)
    (hupd : ∀ a, key (upd a) = key a) (hfresh : key fresh = mid)
    (hnd : (st.map key).Nodup) :
    ((sqlUpsert key mid upd fresh st).map key).Nodup := by
  unfold sqlUpsert
  have hmapkey : (st.map (fun r => if key r = mid then upd r else r)).map key
      = st.map key := by
    rw [List.map_map]
    exact List.map_congr_left (fun a _ => key_if_upd key mid upd hupd a)
  by_cases hany : st.any (fun r => decide (key r = mid)) = true
  · simp only [hany, if_true, hmapkey, hnd]
  · have habs : ∀ r ∈ st, ¬ key r = mid := by
      intro r hr hkr
      exact hany (List.any_eq_true.mpr ⟨r, hr, by simp [hkr]⟩)
    simp only [hany, Bool.false_eq_true, if_false, List.map_append, hmapkey,
      List.map_cons, List.map_nil, hfresh]
    rw [List.nodup_append]
    refine ⟨hnd, List.nodup_singleton mid, ?_⟩
    intro x hx
    simp only [List.mem_singleton]
    intro hxm
    obtain ⟨r, hr, hrk⟩ := List.mem_map.mp hx
    exact habs r hr (hrk.trans hxm)

theorem find?_updMap {α : Type} (key : α → PyStr) (mid : PyStr) (upd : α → α)
    (st : List α) (row : α) (hupd : ∀ a, key (upd a) = key a)
    (hrow : st.find? (fun r => key r = mid) = some row) :
    (st.map (fun r => if key r = mid then upd r else r)).find?
      (fun r => key r = mid) = some (upd row) := by
  rw [List.find?_map]
  have hcomp : ((fun r => decide (key r = mid)) ∘
      (fun r => if key r = mid then upd r else r)) =
      fun r => decide (key r = mid) := by
    funext r
    by_cases h : key r = mid <;> simp [h, hupd]
  rw [hcomp, hrow]
  have hmid : key row = mid := by
    have := List.find?_some hrow
    simpa using this
  simp [Option.map_some, hmid]

/-- Claim C1: calling `create_process` twice in sequence for the same
`meeting_id` leaves exactly one `summary_processes` row for that id, and the
second call's values supersede the first: status `PENDING`, `updated_at` and
`start_time` stamped with the second call's time, `error` and `result`
cleared to `NULL`.  The hypothesis is the `meeting_id TEXT PRIMARY KEY`
constraint on the starting table. -/
theorem create_process_twice_one_row (st : List ProcRow) (mid t1 t2 : PyStr)
    (hnd : (st.map (fun r => r.meeting_id)).Nodup) :
    ∃ row : ProcRow,
      (create_process (create_process st mid t1) mid t2).filter
        (fun r => r.meeting_id = mid) = [row] ∧
      row.meeting_id = mid ∧ row.status = "PENDING".data ∧
      row.updated_at = t2 ∧ row.start_time = some t2 ∧
      row.error = none ∧ row.result = none := by
  have hupd1 : ∀ a : ProcRow, (createProcessUpd t1 a).meeting_id = a.meeting_id :=
    fun a => rfl
  have hupd2 : ∀ a : ProcRow, (createProcessUpd t2 a).meeting_id = a.meeting_id :=
    fun a => rfl
  have hnd1 : ((create_process st mid t1).map (fun r => r.meeting_id)).Nodup :=
    sqlUpsert_nodup (fun r => r.meeting_id) mid (createProcessUpd t1)
      (createProcessFresh mid t1) st hupd1 rfl hnd
  have h2 := sqlUpsert_filter (fun r => r.meeting_id) mid (createProcessUpd t2)
    (createProcessFresh mid t2) (create_process st mid t1) hupd2 rfl hnd1
  unfold create_process
  cases hfind : (create_process st mid t1).find? (fun r => r.meeting_id = mid) with
  | some r =>
    rw [hfind] at h2
    refine ⟨createProcessUpd t2 r, ?_, ?_, rfl, rfl, rfl, rfl, rfl⟩
    · unfold create_process at h2
      exact h2
    · have := List.find?_some hfind
      simpa [createProcessUpd] using this
  | none =>
    rw [hfind] at h2
    refine ⟨createProcessFresh mid t2, ?_, rfl, rfl, rfl, rfl, rfl, rfl⟩
    unfold create_process at h2
    exact h2

/-- Concrete instance of `create_process_twice_one_row`, starting from the
empty table. -/
theorem create_process_twice_one_row_witness :
    ∃ row : ProcRow,
      (create_process (create_process [] "m1".data "t1".data) "m1".data
        "t2".data).filter (fun r => r.meeting_id = "m1".data) = [row] ∧
      row.meeting_id = "m1".data ∧ row.status = "PENDING".data ∧
      row.updated_at = "t2".data ∧ row.start_time = some "t2".data ∧
      row.error = none ∧ row.result = none :=
  create_process_twice_one_row [] "m1".data "t1".data "t2".data (by simp)

theorem sanitizeError_clean (e : PyStr) :
    '\n' ∉ sanitizeError e ∧ '\r' ∉ sanitizeError e ∧
    (sanitizeError e).length ≤ 1000 := by
  refine ⟨?_, ?_, ?_⟩
  · intro h
    have h1 := List.mem_of_mem_take h
    have h2 := (List.mem_filter.mp h1).1
    obtain ⟨c, _, hc⟩ := List.mem_map.mp h2
    by_cases hcn : c = '\n'
    · rw [if_pos hcn] at hc
      exact absurd hc (by decide)
    · rw [if_neg hcn] at hc
      exact hcn hc
  · intro h
    have h1 := List.mem_of_mem_take h
    have h2 := (List.mem_filter.mp h1).2
    simp at h2
  · unfold sanitizeError
    rw [List.length_take]
    exact min_le_left _ _

/-- Claim C4: a non-empty `error` passed to a successful `update_process`
call is stored as its sanitized form, which contains no newline and no
carriage return and is at most 1000 characters long. -/
theorem update_process_sanitizes_error (st : List ProcRow)
    (mid status now : PyStr) (result : Option PyDict) (error : PyStr)
    (cc pt : Option Int) (md : Option PyDict) (row : ProcRow)
    (hres : resultAborts result = false)
    (hrow : st.find? (fun r => r.meeting_id = mid) = some row)
    (herr : error ≠ []) :
    ∃ st' row',
      update_process st mid status result (some error) cc pt md now =
        Except.ok st' ∧
      st'.find? (fun r => r.meeting_id = mid) = some row' ∧
      row'.error = some (sanitizeError error) ∧
      '\n' ∉ sanitizeError error ∧ '\r' ∉ sanitizeError error ∧
      (sanitizeError error).length ≤ 1000 := by
  obtain ⟨hnl, hcr, hlen⟩ := sanitizeError_clean error
  refine ⟨st.map (fun r =>
      if r.meeting_id = mid then
        applyProcUpdate status result (some error) cc pt md now r
      else r),
    applyProcUpdate status result (some error) cc pt md now row,
    ?_, ?_, ?_, hnl, hcr, hlen⟩
  · unfold update_process
    rw [hres]
    rfl
  · exact find?_updMap (fun r => r.meeting_id) mid
      (applyProcUpdate status result (some error) cc pt md now) st row
      (by intro a; rfl) hrow
  · unfold applyProcUpdate
    simp [herr]

/-- Concrete instance of `update_process_sanitizes_error` for the spec's
example error `"line1\nline2" + "x" * 2000`. -/
theorem update_process_sanitizes_error_witness :
    ∃ st' row',
      update_process [createProcessFresh "m1".data "t0".data] "m1".data
        "FAILED".data none (some ("line1\nline2".data ++
          List.replicate 2000 'x')) none none none "t1".data =
        Except.ok st' ∧
      st'.find? (fun r => r.meeting_id = "m1".data) = some row' ∧
      row'.error = some (sanitizeError ("line1\nline2".data ++
        List.replicate 2000 'x')) ∧
      '\n' ∉ sanitizeError ("line1\nline2".data ++ List.replicate 2000 'x') ∧
      '\r' ∉ sanitizeError ("line1\nline2".data ++ List.replicate 2000 'x') ∧
      (sanitizeError ("line1\nline2".data ++
        List.replicate 2000 'x')).length ≤ 1000 :=
  update_process_sanitizes_error [createProcessFresh "m1".data "t0".data]
    "m1".data "FAILED".data "t1".data none
    ("line1\nline2".data ++ List.replicate 2000 'x') none none none
    (createProcessFresh "m1".data "t0".data) rfl rfl
    (by exact List.cons_ne_nil 'l' _)

/-- Claim C9: a successful `update_process` call always overwrites `status`
and `updated_at` on the matched row; a supplied-but-falsy `result` (empty
dict), `error` (empty string) or `metadata` (empty dict) is treated as
absent and leaves its column unchanged, while `chunk_count` and
`processing_time` are compared against `None` and so are written even when
zero. -/
theorem update_process_frame (st : List ProcRow) (mid status now : PyStr)
    (result : Option PyDict) (error : Option PyStr) (cc pt : Option Int)
    (md : Option PyDict) (row : ProcRow)
    (hres : resultAborts result = false)
    (hrow : st.find? (fun r => r.meeting_id = mid) = some row) :
    ∃ st' row',
      update_process st mid status result error cc pt md now =
        Except.ok st' ∧
      st'.find? (fun r => r.meeting_id = mid) = some row' ∧
      row'.status = status ∧ row'.updated_at = now ∧
      (result = some [] → row'.result = row.result) ∧
      (error = some [] → row'.error = row.error) ∧
      (md = some [] → row'.metadata = row.metadata) ∧
      (∀ n, cc = some n → row'.chunk_count = n) ∧
      (∀ x, pt = some x → row'.processing_time = x) := by
  refine ⟨st.map (fun r =>
      if r.meeting_id = mid then
        applyProcUpdate status result error cc pt md now r
      else r),
    applyProcUpdate status result error cc pt md now row,
    ?_, ?_, rfl, rfl, ?_, ?_, ?_, ?_, ?_⟩
  · unfold update_process
    rw [hres]
    rfl
  · exact find?_updMap (fun r => r.meeting_id) mid
      (applyProcUpdate status result error cc pt md now) st row
      (by intro a; rfl) hrow
  · intro h
    subst h
    simp [applyProcUpdate]
  · intro h
    subst h
    simp [applyProcUpdate]
  · intro h
    subst h
    simp [applyProcUpdate]
  · intro n h
    subst h
    simp [applyProcUpdate]
  · intro x h
    subst h
    simp [applyProcUpdate]

/-- Concrete instance of `update_process_frame` with all falsy-supplied
fields present and zero `chunk_count`/`processing_time`. -/
theorem update_process_frame_witness :
    ∃ st' row',
      update_process [createProcessFresh "m1".data "t0".data] "m1".data
        "RUNNING".data (some []) (some []) (some 0) (some 0) (some [])
        "t1".data = Except.ok st' ∧
      st'.find? (fun r => r.meeting_id = "m1".data) = some row' ∧
      row'.status = "RUNNING".data ∧ row'.updated_at = "t1".data ∧
      (some [] = some ([] : PyDict) →
        row'.result = (createProcessFresh "m1".data "t0".data).result) ∧
      (some [] = some ([] : PyStr) →
        row'.error = (createProcessFresh "m1".data "t0".data).error) ∧
      (some [] = some ([] : PyDict) →
        row'.metadata = (createProcessFresh "m1".data "t0".data).metadata) ∧
      (∀ n, some 0 = some n → row'.chunk_count = n) ∧
      (∀ x, some 0 = some x → row'.processing_time = x) :=
  update_process_frame [createProcessFresh "m1".data "t0".data] "m1".data
    "RUNNING".data "t1".data (some []) (some []) (some 0) (some 0) (some [])
    (createProcessFresh "m1".data "t0".data) rfl rfl

/-- Claim C5: a truthy `result` that cannot be JSON-serialized aborts the
whole `update_process` call (the transaction raises before writing, so no
fields change), while a truthy non-serializable `metadata` is dropped and
every other part of the update — `status`, `updated_at` and any other
supplied field — still goes through. -/
theorem update_process_serialization_policy (st : List ProcRow)
    (mid status now : PyStr) (result : Option PyDict) (error : Option PyStr)
    (cc pt : Option Int) (d m : PyDict) (row : ProcRow)
    (hd : d ≠ []) (hdbad : serializableEntries d = false)
    (hm : m ≠ []) (hmbad : serializableEntries m = false)
    (hres : resultAborts result = false)
    (hrow : st.find? (fun r => r.meeting_id = mid) = some row) :
    (∀ md', update_process st mid status (some d) error cc pt md' now =
      Except.error "Result data cannot be JSON serialized".data) ∧
    (∃ st' row',
      update_process st mid status result error cc pt (some m) now =
        Except.ok st' ∧
      st'.find? (fun r => r.meeting_id = mid) = some row' ∧
      row'.metadata = row.metadata ∧
      row'.status = status ∧ row'.updated_at = now ∧
      (∀ e, error = some e → e ≠ [] → row'.error = some (sanitizeError e)) ∧
      (∀ rd, result = some rd → rd ≠ [] → serializableEntries rd = true →
        row'.result = some rd) ∧
      (∀ n, cc = some n → row'.chunk_count = n) ∧
      (∀ x, pt = some x → row'.processing_time = x)) := by
  constructor
  · intro md'
    unfold update_process
    have : resultAborts (some d) = true := by
      simp [resultAborts, hd, hdbad]
    rw [this]
    rfl
  · refine ⟨st.map (fun r =>
        if r.meeting_id = mid then
          applyProcUpdate status result error cc pt (some m) now r
        else r),
      applyProcUpdate status result error cc pt (some m) now row,
      ?_, ?_, ?_, rfl, rfl, ?_, ?_, ?_, ?_⟩
    · unfold update_process
      rw [hres]
      rfl
    · exact find?_updMap (fun r => r.meeting_id) mid
        (applyProcUpdate status result error cc pt (some m) now) st row
        (by intro a; rfl) hrow
    · simp [applyProcUpdate, hmbad]
    · intro e h hne
      subst h
      simp [applyProcUpdate, hne]
    · intro rd h hne hser
      subst h
      simp [applyProcUpdate, hne, hser]
    · intro n h
      subst h
      simp [applyProcUpdate]
    · intro x h
      subst h
      simp [applyProcUpdate]

/-- Concrete instance of `update_process_serialization_policy` at a
one-entry non-serializable dict. -/
theorem update_process_serialization_policy_witness :
    (∀ md', update_process [createProcessFresh "m1".data "t0".data]
      "m1".data "COMPLETED".data (some [("k".data, PyVal.vobj "set()".data)])
      (some "boom".data) (some 3) (some 7) md' "t1".data =
      Except.error "Result data cannot be JSON serialized".data) ∧
    (∃ st' row',
      update_process [createProcessFresh "m1".data "t0".data] "m1".data
        "COMPLETED".data (some [("ok".data, PyVal.vint 1)])
        (some "boom".data) (some 3) (some 7)
        (some [("k".data, PyVal.vobj "set()".data)]) "t1".data =
        Except.ok st' ∧
      st'.find? (fun r => r.meeting_id = "m1".data) = some row' ∧
      row'.metadata = (createProcessFresh "m1".data "t0".data).metadata ∧
      row'.status = "COMPLETED".data ∧ row'.updated_at = "t1".data ∧
      (∀ e, some "boom".data = some e → e ≠ [] →
        row'.error = some (sanitizeError e)) ∧
      (∀ rd, some [("ok".data, PyVal.vint 1)] = some rd → rd ≠ [] →
        serializableEntries rd = true → row'.result = some rd) ∧
      (∀ n, some 3 = some n → row'.chunk_count = n) ∧
      (∀ x, some 7 = some x → row'.processing_time = x)) :=
  update_process_serialization_policy
    [createProcessFresh "m1".data "t0".data] "m1".data "COMPLETED".data
    "t1".data (some [("ok".data, PyVal.vint 1)]) (some "boom".data)
    (some 3) (some 7) [("k".data, PyVal.vobj "set()".data)]
    [("k".data, PyVal.vobj "set()".data)]
    (createProcessFresh "m1".data "t0".data)
    (by simp) rfl (by simp) rfl rfl rfl

/-- Claim C10: `save_transcript` raises `ValueError` — before any write —
whenever `meeting_id` or `transcript_text` is empty/whitespace-only,
`chunk_size ≤ 0`, `overlap < 0`, or the text exceeds 10,000,000 characters;
on valid input it upserts, leaving exactly one `transcript_chunks` row for
the meeting id and preserving the primary-key uniqueness of the table. -/
theorem save_transcript_guards_and_upsert (st : List BlobRow)
    (mid text model model_name : PyStr) (cs ov : Int) (now : PyStr)
    (hnd : (st.map (fun r => r.meeting_id)).Nodup) :
    ((pyStrip mid = [] ∨ pyStrip text = [] ∨ cs ≤ 0 ∨ ov < 0 ∨
        text.length > 10000000) →
      ∃ msg, save_transcript st mid text model model_name cs ov now =
        Except.error msg) ∧
    (pyStrip mid ≠ [] → pyStrip text ≠ [] → 0 < cs → 0 ≤ ov →
      text.length ≤ 10000000 →
      ∃ st', save_transcript st mid text model model_name cs ov now =
        Except.ok st' ∧
      (st'.filter (fun r => r.meeting_id = mid)).length = 1 ∧
      (st'.map (fun r => r.meeting_id)).Nodup) := by
  constructor
  · intro hbad
    unfold save_transcript
    split_ifs with h1 h2 h3 h4
    · exact ⟨_, rfl⟩
    · exact ⟨_, rfl⟩
    · exact ⟨_, rfl⟩
    · exact ⟨_, rfl⟩
    · exfalso
      rw [List.isEmpty_iff] at h1 h2
      rcases hbad with h | h | h | h | h
      · exact h1 h
      · exact h2 h
      · exact h3 (Or.inl h)
      · exact h3 (Or.inr h)
      · exact h4 h
  · intro hmid htext hcs hov hlen
    unfold save_transcript
    split_ifs with h1 h2 h3 h4
    · exact absurd (List.isEmpty_iff.mp h1) hmid
    · exact absurd (List.isEmpty_iff.mp h2) htext
    · rcases h3 with h | h
      · omega
      · omega
    · omega
    · refine ⟨_, rfl, ?_, ?_⟩
      · rw [sqlUpsert_filter (fun r => r.meeting_id) mid
          (saveTranscriptUpd text model model_name cs ov now)
          (saveTranscriptFresh mid text model model_name cs ov now) st
          (by intro a; rfl) rfl hnd]
        rfl
      · exact sqlUpsert_nodup (fun r => r.meeting_id) mid
          (saveTranscriptUpd text model model_name cs ov now)
          (saveTranscriptFresh mid text model model_name cs ov now) st
          (by intro a; rfl) rfl hnd

/-- Concrete instances of `save_transcript_guards_and_upsert`: the empty
transcript is rejected, and a well-formed call starting from the empty
table yields exactly one row. -/
theorem save_transcript_guards_and_upsert_witness :
    (∃ msg, save_transcript [] "m1".data "  ".data "ollama".data
      "phi4".data 100 10 "t0".data = Except.error msg) ∧
    (∃ st', save_transcript [] "m1".data "hello world".data "ollama".data
      "phi4".data 100 10 "t0".data = Except.ok st' ∧
      (st'.filter (fun r => r.meeting_id = "m1".data)).length = 1 ∧
      (st'.map (fun r => r.meeting_id)).Nodup) :=
  ⟨(save_transcript_guards_and_upsert [] "m1".data "  ".data "ollama".data
      "phi4".data 100 10 "t0".data (by simp)).1
    (Or.inr (Or.inl (by decide))),
   (save_transcript_guards_and_upsert [] "m1".data "hello world".data
      "ollama".data "phi4".data 100 10 "t0".data (by simp)).2
    (by decide) (by decide) (by decide) (by decide) (by decide)⟩

/-- Claim C7 counterexample: `save_api_key` is not masked-value aware.  With
an existing stored key `"sk-123"`, saving the masked sentinel `"********"`
for provider `openai` overwrites the stored key with the literal sentinel
instead of keeping `"sk-123"`. -/
theorem save_api_key_masked_overwrites :
    save_api_key
      (some ⟨"openai".data, "gpt-4o".data, "large-v3".data, none,
        some "sk-123".data, none, none, none⟩)
      "********".data "openai".data =
      Except.ok (some ⟨"openai".data, "gpt-4o".data, "large-v3".data, none,
        some "********".data, none, none, none⟩) ∧
    some "********".data ≠ some "sk-123".data :=
  ⟨rfl, by decide⟩

/-- Claim C7 (amended): the masked-sentinel rule holds for
`save_jira_config`: given non-empty url/email, a masked/blank/None
`api_token` keeps the existing stored token when one exists, and raises the
fatal `ValueError` when no configuration row exists or the stored token is
empty.  (`save_api_key` stores the sentinel verbatim and is excluded.) -/
theorem save_jira_config_masked_rule (st : Option JiraRow) (url email : PyStr)
    (tok : Option PyStr) (dpk dit : Option PyStr)
    (hu : url ≠ []) (he : email ≠ []) (hmask : maskedToken tok = true) :
    (∀ ex, st = some ex → ex.api_token ≠ [] →
      save_jira_config st url email tok dpk dit =
        Except.ok (some ⟨url, email, ex.api_token, dpk, dit⟩)) ∧
    (∀ ex, st = some ex → ex.api_token = [] →
      save_jira_config st url email tok dpk dit =
        Except.error "API Token is required for new configuration".data) ∧
    (st = none →
      save_jira_config st url email tok dpk dit =
        Except.error "API Token is required for new configuration".data) := by
  refine ⟨?_, ?_, ?_⟩
  · intro ex hst htok
    subst hst
    simp [save_jira_config, hu, he, hmask, htok]
  · intro ex hst htok
    subst hst
    simp [save_jira_config, hu, he, hmask, htok]
  · intro hst
    subst hst
    simp [save_jira_config, hu, he, hmask]

/-- Concrete instances of `save_jira_config_masked_rule`: keeping an
existing token under a masked save, and the fatal error with no existing
configuration. -/
theorem save_jira_config_masked_rule_witness :
    save_jira_config
      (some ⟨"https://j".data, "a@b.c".data, "tok-1".data, none, none⟩)
      "https://j".data "a@b.c".data (some "********".data) none none =
      Except.ok (some ⟨"https://j".data, "a@b.c".data, "tok-1".data, none,
        none⟩) ∧
    save_jira_config none "https://j".data "a@b.c".data
      (some "********".data) none none =
      Except.error "API Token is required for new configuration".data :=
  ⟨(save_jira_config_masked_rule
      (some ⟨"https://j".data, "a@b.c".data, "tok-1".data, none, none⟩)
      "https://j".data "a@b.c".data (some "********".data) none none
      (by decide) (by decide) (by decide)).1
      ⟨"https://j".data, "a@b.c".data, "tok-1".data, none, none⟩ rfl
      (by decide),
   (save_jira_config_masked_rule none "https://j".data "a@b.c".data
      (some "********".data) none none
      (by decide) (by decide) (by decide)).2.2 rfl⟩

theorem pyStripL_append (x y : PyStr) (hx : pyStripL x = x) (hxne : x ≠ []) :
    pyStripL (x ++ y) = x ++ y := by
  cases x with
  | nil => exact absurd rfl hxne
  | cons c t =>
    have hc : pyIsSpace c = false := by
      have := (List.dropWhile_eq_self_iff.mp hx) (by simp)
      simpa using this
    simp [pyStripL, List.cons_append, List.dropWhile_cons, hc]

theorem pyStripR_append (x y : PyStr) (hy : pyStripR y = y) (hyne : y ≠ []) :
    pyStripR (x ++ y) = x ++ y := by
  have hy' : y.reverse.dropWhile pyIsSpace = y.reverse := by
    have := congrArg List.reverse hy
    unfold pyStripR at this
    simpa using this
  cases hr : y.reverse with
  | nil =>
    rw [List.reverse_eq_nil_iff] at hr
    exact absurd hr hyne
  | cons c t =>
    have hc : pyIsSpace c = false := by
      rw [hr] at hy'
      have := (List.dropWhile_eq_self_iff.mp hy') (by simp)
      simpa using this
    have hyy : y = (c :: t).reverse := by
      rw [← hr, List.reverse_reverse]
    unfold pyStripR
    rw [List.reverse_append, hr, List.cons_append, List.dropWhile_cons, hc]
    simp only [Bool.false_eq_true, if_false]
    rw [← List.cons_append, List.reverse_append, List.reverse_reverse, hyy]

theorem pyStrip_cons_space (c : Char) (j : PyStr) (hc : pyIsSpace c = true) :
    pyStrip (c :: j) = pyStrip j := by
  unfold pyStrip pyStripL
  rw [List.dropWhile_cons, hc]
  simp

/-- Claim C8 (amended): for every JSON text `j`, stripping the fenced
wrapping ```` ```json\n{j}``` ```` yields `j` up to surrounding-whitespace
trimming — exactly `j` whenever `j` carries no leading/trailing whitespace —
and an unfenced payload comes back with only its surrounding whitespace
trimmed. -/
theorem strip_code_fence_unwraps (j p : PyStr)
    (hp : "```".data.isPrefixOf (pyStrip p) = false) :
    stripCodeFence ("```json\n".data ++ j ++ "```".data) = pyStrip j ∧
    stripCodeFence p = pyStrip p := by
  constructor
  · have hL : pyStripL ("```json\n".data ++ (j ++ "```".data)) =
        "```json\n".data ++ (j ++ "```".data) :=
      pyStripL_append "```json\n".data (j ++ "```".data) (by decide)
        (by decide)
    have hR : pyStripR (("```json\n".data ++ j) ++ "```".data) =
        ("```json\n".data ++ j) ++ "```".data :=
      pyStripR_append ("```json\n".data ++ j) "```".data (by decide)
        (by decide)
    have htrim : pyStrip ("```json\n".data ++ j ++ "```".data) =
        "```json\n".data ++ j ++ "```".data := by
      unfold pyStrip
      rw [List.append_assoc, hL, ← List.append_assoc, hR]
    unfold stripCodeFence
    rw [htrim]
    rw [if_neg (by
      simp only [not_not]
      show List.isPrefixOf "```".data
        ("```json\n".data ++ j ++ "```".data) = true
      simp [List.isPrefixOf, List.cons_append])]
    have hdrop3 : ("```json\n".data ++ j ++ "```".data).drop 3 =
        "json\n".data ++ (j ++ "```".data) := by
      rw [List.append_assoc, List.drop_append_of_le_length (by simp)]
      rfl
    rw [hdrop3]
    dsimp only
    have hL2 : pyStripL ("json\n".data ++ (j ++ "```".data)) =
        "json\n".data ++ (j ++ "```".data) :=
      pyStripL_append "json\n".data (j ++ "```".data) (by decide) (by decide)
    rw [hL2]
    have hjson : List.isPrefixOf "json".data
        (pyLower ("json\n".data ++ (j ++ "```".data))) = true := by
      unfold pyLower
      rw [List.map_append]
      simp [List.isPrefixOf]
    rw [hjson, if_pos rfl]
    have hdrop4 : ("json\n".data ++ (j ++ "```".data)).drop 4 =
        '\n' :: (j ++ "```".data) := by
      rw [List.drop_append_of_le_length (by simp)]
      rfl
    rw [hdrop4]
    have hcons : '\n' :: (j ++ "```".data) = ('\n' :: j) ++ "```".data := by
      simp
    have hsuf : List.isSuffixOf "```".data ('\n' :: (j ++ "```".data)) =
        true := by
      rw [List.isSuffixOf_iff_suffix, hcons]
      exact List.suffix_append ('\n' :: j) "```".data
    rw [hsuf, if_pos rfl]
    have htake : ('\n' :: (j ++ "```".data)).take
        (('\n' :: (j ++ "```".data)).length - 3) = '\n' :: j := by
      rw [hcons]
      have hlen : (('\n' :: j) ++ "```".data).length - 3 =
          ('\n' :: j).length := by
        simp
      rw [hlen, List.take_left]
    rw [htake]
    exact pyStrip_cons_space '\n' j (by decide)
  · unfold stripCodeFence
    rw [if_pos (by simp [hp])]

/-- Claim C8 counterexample: for the JSON text `j = "\x7b\x7d\n"` (a valid
JSON text with a trailing newline), `_strip_code_fence` applied to the
fenced wrapping does not yield exactly `j` — it yields `j` with the
surrounding whitespace trimmed. -/
theorem strip_code_fence_not_exact :
    stripCodeFence ("```json\n".data ++ "\x7b\x7d\n".data ++ "```".data) =
      "\x7b\x7d".data ∧
    "\x7b\x7d".data ≠ "\x7b\x7d\n".data := by
  exact ⟨by decide, by decide⟩

/-- Concrete instance of `strip_code_fence_unwraps`: a whitespace-free JSON
array survives un-fencing exactly, and an unfenced payload is only
trimmed. -/
theorem strip_code_fence_unwraps_witness :
    stripCodeFence ("```json\n".data ++ "[1, 2]".data ++ "```".data) =
      pyStrip "[1, 2]".data ∧
    stripCodeFence "  [3] ".data = pyStrip "  [3] ".data :=
  strip_code_fence_unwraps "[1, 2]".data "  [3] ".data (by decide)

/-- Claim C2 counterexample: at `chunk_size = 0`, `overlap = 0` (which
satisfies `overlap ≥ chunk_size`) and the non-empty text `"a"`, the
recomputed stride is `0` — not strictly positive — and the chunk
comprehension raises Python's `range` `ValueError` (modelled `none`), so no
chunk list is produced. -/
theorem chunking_zero_chunk_size :
    (0 : Int) ≥ (0 : Int) ∧ "a".data ≠ [] ∧
    recomputedStride 0 0 = 0 ∧ chunkTranscript "a".data 0 0 = none := by
  exact ⟨le_refl 0, by decide, by decide, by decide⟩

/-- Claim C2 (amended): for every positive `chunk_size`, every
`overlap ≥ chunk_size` and every non-empty text, the recomputed stride is
`min chunk_size 100`, strictly positive, and chunking terminates with a
non-empty chunk list whose `k`-th element is the window
`text[k*stride : k*stride + chunk_size]`, the indices stepping by the
stride from 0 until the text is exhausted. -/
theorem chunking_terminates_with_windows (text : PyStr) (cs ov : Int)
    (htext : text ≠ []) (hcs : 1 ≤ cs) (hov : cs ≤ ov) :
    recomputedStride cs ov = min cs 100 ∧
    0 < recomputedStride cs ov ∧
    ∃ chunks, chunkTranscript text cs ov = some chunks ∧ chunks ≠ [] ∧
      chunks.length =
        (text.length + (recomputedStride cs ov).toNat - 1) /
          (recomputedStride cs ov).toNat ∧
      ∀ k (hk : k < chunks.length),
        chunks.get ⟨k, hk⟩ =
          pySlice text ((k : Int) * recomputedStride cs ov)
            ((k : Int) * recomputedStride cs ov + cs) := by
  have hstride : recomputedStride cs ov = min cs 100 := by
    unfold recomputedStride recomputedOverlap
    rw [if_pos (by omega)]
    rcases le_total (cs - 100) 0 with h | h
    · rw [max_eq_left h, min_eq_left (by omega : cs ≤ 100)]
      omega
    · rw [max_eq_right h, min_eq_right (by omega : 100 ≤ cs)]
      omega
  have hpos : 0 < recomputedStride cs ov := by
    rw [hstride]
    exact lt_min (by omega) (by omega)
  refine ⟨hstride, hpos, ?_⟩
  refine ⟨(pyRangeUp text.length (recomputedStride cs ov).toNat).map
    (fun i : Nat => pySlice text (i : Int) ((i : Int) + cs)), ?_, ?_, ?_, ?_⟩
  · unfold chunkTranscript
    rw [if_neg (by omega), if_neg (by omega)]
  · have hn : 0 < text.length := List.length_pos.mpr htext
    have hst : 0 < (recomputedStride cs ov).toNat := by omega
    rw [← List.length_pos, List.length_map]
    unfold pyRangeUp
    rw [List.length_map, List.length_range]
    rw [Nat.lt_iff_add_one_le, Nat.le_div_iff_mul_le hst]
    omega
  · rw [List.length_map]
    unfold pyRangeUp
    rw [List.length_map, List.length_range]
  · intro k hk
    rw [List.get_map]
    have hget : (pyRangeUp text.length (recomputedStride cs ov).toNat).get
        ⟨k, by simpa [pyRangeUp] using hk⟩ =
        k * (recomputedStride cs ov).toNat := by
      unfold pyRangeUp
      rw [List.get_map]
      simp
    rw [hget]
    have hcast : ((k * (recomputedStride cs ov).toNat : Nat) : Int) =
        (k : Int) * recomputedStride cs ov := by
      push_cast
      rw [Int.toNat_of_nonneg hpos.le]
    rw [hcast]

/-- Concrete instance of `chunking_terminates_with_windows` at
`chunk_size = 3`, `overlap = 5`. -/
theorem chunking_terminates_with_windows_witness :
    recomputedStride 3 5 = min 3 100 ∧
    0 < recomputedStride 3 5 ∧
    ∃ chunks, chunkTranscript "hello!".data 3 5 = some chunks ∧
      chunks ≠ [] ∧
      chunks.length =
        ("hello!".data.length + (recomputedStride 3 5).toNat - 1) /
          (recomputedStride 3 5).toNat ∧
      ∀ k (hk : k < chunks.length),
        chunks.get ⟨k, hk⟩ =
          pySlice "hello!".data ((k : Int) * recomputedStride 3 5)
            ((k : Int) * recomputedStride 3 5 + 3) :=
  chunking_terminates_with_windows "hello!".data 3 5 (by decide) (by decide)
    (by decide)

theorem intercalate_cons_ne_nil (sep x : PyStr) (xs : List PyStr)
    (hx : x ≠ []) : List.intercalate sep (x :: xs) ≠ [] := by
  cases xs with
  | nil => simpa [List.intercalate] using hx
  | cons y ys =>
    unfold List.intercalate
    rw [List.intersperse_cons₂]
    simp [hx]

theorem mem_sortedSegs (st : DBState) (mid : PyStr) (r : SegRow) :
    r ∈ sortedSegs st mid ↔ r ∈ st.transcripts ∧ r.meeting_id = mid := by
  unfold sortedSegs
  rw [(List.perm_insertionSort _ _).mem_iff]
  simp [List.mem_filter]

/-- Claim C3 (amended): `get_transcript_data` returns the Transcript Blob
row merged with the left-joined process columns whenever a blob with
non-empty `transcript_text` exists (segments present or not); otherwise,
when at least one segment has non-empty text, it returns the *non-empty*
segment texts in ascending timestamp order joined by newlines, merged with
the process columns; it returns `None` when no blob text exists and every
segment text is empty (or no segment exists). -/
theorem get_transcript_data_cases (st : DBState) (mid : PyStr) :
    (∀ b, st.chunks.find? (fun r => r.meeting_id = mid) = some b →
      b.transcript_text ≠ [] →
      get_transcript_data st mid =
        some (TDOut.blobData b ((procJoin st mid).map (fun q => q.status))
          ((procJoin st mid).bind (fun q => q.result))
          ((procJoin st mid).bind (fun q => q.error)))) ∧
    ((∀ b, st.chunks.find? (fun r => r.meeting_id = mid) = some b →
        b.transcript_text = []) →
      ((∃ r, r ∈ st.transcripts ∧ r.meeting_id = mid ∧ r.transcript ≠ []) →
        get_transcript_data st mid =
          some (TDOut.segData mid
            (List.intercalate ['\n']
              (((sortedSegs st mid).map (fun r => r.transcript)).filter
                (fun t => ¬ t.isEmpty)))
            ((procJoin st mid).map (fun q => q.status))
            ((procJoin st mid).bind (fun q => q.result))
            ((procJoin st mid).bind (fun q => q.error)))) ∧
      ((∀ r, r ∈ st.transcripts → r.meeting_id = mid → r.transcript = []) →
        get_transcript_data st mid = none)) := by
  constructor
  · intro b hb hne
    unfold get_transcript_data
    rw [hb]
    dsimp only
    rw [if_neg (by simp [List.isEmpty_iff, hne])]
  · intro hblob
    have hseg : get_transcript_data st mid = segFallback st mid := by
      cases hfind : st.chunks.find? (fun r => r.meeting_id = mid) with
      | none =>
        unfold get_transcript_data
        rw [hfind]
      | some b =>
        unfold get_transcript_data
        rw [hfind]
        dsimp only
        rw [if_pos (by simp [List.isEmpty_iff, hblob b hfind])]
    rw [hseg]
    constructor
    · rintro ⟨r0, hr0mem, hr0mid, hr0ne⟩
      have hr0s : r0 ∈ sortedSegs st mid :=
        (mem_sortedSegs st mid r0).mpr ⟨hr0mem, hr0mid⟩
      have hrows : (sortedSegs st mid).isEmpty = false := by
        simp [List.isEmpty_iff]
        exact List.ne_nil_of_mem hr0s
      have hfilmem : r0.transcript ∈
          ((sortedSegs st mid).map (fun r => r.transcript)).filter
            (fun t => ¬ t.isEmpty) := by
        refine List.mem_filter.mpr ⟨List.mem_map_of_mem _ hr0s, ?_⟩
        simp [List.isEmpty_iff, hr0ne]
      have hjoin : (List.intercalate ['\n']
          (((sortedSegs st mid).map (fun r => r.transcript)).filter
            (fun t => ¬ t.isEmpty))).isEmpty = false := by
        cases hfil : ((sortedSegs st mid).map (fun r => r.transcript)).filter
            (fun t => ¬ t.isEmpty) with
        | nil =>
          rw [hfil] at hfilmem
          exact absurd hfilmem (List.not_mem_nil _)
        | cons f fs =>
          have hf : f ≠ [] := by
            have hfmem : f ∈ ((sortedSegs st mid).map
                (fun r => r.transcript)).filter (fun t => ¬ t.isEmpty) := by
              rw [hfil]
              exact List.mem_cons_self f fs
            have := (List.mem_filter.mp hfmem).2
            simpa [List.isEmpty_iff] using this
          simp [List.isEmpty_iff]
          exact intercalate_cons_ne_nil ['\n'] f fs hf
      unfold segFallback
      dsimp only
      simp only [hrows, hjoin, Bool.false_eq_true, if_false]
    · intro hall
      by_cases hrows : (sortedSegs st mid).isEmpty
      · simp [segFallback, hrows]
      · have hfil : ((sortedSegs st mid).map (fun r => r.transcript)).filter
            (fun t => ¬ t.isEmpty) = [] := by
          rw [List.filter_eq_nil_iff]
          intro a ha
          obtain ⟨seg, hsegmem, hsegeq⟩ := List.mem_map.mp ha
          obtain ⟨hmem, hmid⟩ := (mem_sortedSegs st mid seg).mp hsegmem
          have : seg.transcript = [] := hall seg hmem hmid
          simp [← hsegeq, this]
        unfold segFallback
        dsimp only
        rw [hfil]
        simp [hrows, List.intercalate]

/-- Claim C3 counterexample: with no blob row and segments `["a", ""]`, the
code joins only the non-empty segment texts and returns `"a"`, whereas the
claim's description — all segment texts, timestamp-ordered, newline-joined
(`specSegmentJoin`) — gives `"a\n"`. -/
theorem get_transcript_data_skips_empty_segments :
    get_transcript_data
      ⟨[], [⟨"m".data, "a".data, "t1".data⟩, ⟨"m".data, [], "t2".data⟩], []⟩
      "m".data =
      some (TDOut.segData "m".data "a".data none none none) ∧
    specSegmentJoin
      ⟨[], [⟨"m".data, "a".data, "t1".data⟩, ⟨"m".data, [], "t2".data⟩], []⟩
      "m".data = "a\n".data ∧
    "a".data ≠ "a\n".data := by
  refine ⟨rfl, rfl, by decide⟩

/-- Concrete instances of `get_transcript_data_cases`: blob preferred even
with segments present; segments sorted/joined when no blob; `None` when the
only segment text is empty. -/
theorem get_transcript_data_cases_witness :
    (get_transcript_data
      ⟨[⟨"m".data, none, "blob text".data, "ollama".data, "phi4".data, 100,
          10, "t0".data⟩],
        [⟨"m".data, "seg".data, "t1".data⟩], []⟩ "m".data =
      some (TDOut.blobData
        ⟨"m".data, none, "blob text".data, "ollama".data, "phi4".data, 100,
          10, "t0".data⟩ none none none)) ∧
    (get_transcript_data
      ⟨[], [⟨"m".data, "b".data, "t2".data⟩, ⟨"m".data, "a".data,
        "t1".data⟩], []⟩ "m".data =
      some (TDOut.segData "m".data
        (List.intercalate ['\n']
          (((sortedSegs ⟨[], [⟨"m".data, "b".data, "t2".data⟩,
              ⟨"m".data, "a".data, "t1".data⟩], []⟩ "m".data).map
            (fun r => r.transcript)).filter (fun t => ¬ t.isEmpty)))
        none none none)) ∧
    (get_transcript_data ⟨[], [⟨"m".data, [], "t1".data⟩], []⟩ "m".data =
      none) := by
  refine ⟨?_, ?_, ?_⟩
  · exact (get_transcript_data_cases
      ⟨[⟨"m".data, none, "blob text".data, "ollama".data, "phi4".data, 100,
          10, "t0".data⟩], [⟨"m".data, "seg".data, "t1".data⟩], []⟩
      "m".data).1
      ⟨"m".data, none, "blob text".data, "ollama".data, "phi4".data, 100,
        10, "t0".data⟩ rfl (by decide)
  · exact ((get_transcript_data_cases
      ⟨[], [⟨"m".data, "b".data, "t2".data⟩, ⟨"m".data, "a".data,
        "t1".data⟩], []⟩ "m".data).2
      (fun b h => Option.noConfusion h)).1
      ⟨⟨"m".data, "a".data, "t1".data⟩,
        List.mem_cons_of_mem _ (List.mem_singleton.mpr rfl), rfl,
        by decide⟩
  · exact ((get_transcript_data_cases
      ⟨[], [⟨"m".data, [], "t1".data⟩], []⟩ "m".data).2
      (fun b h => Option.noConfusion h)).2
      (by
        intro r hr _
        rw [List.mem_singleton] at hr
        subst hr
        rfl)

theorem char_toNat_inj {c d : Char} (h : c.toNat = d.toNat) : c = d := by
  apply Char.eq_of_val_eq
  exact UInt32.toNat.inj h

theorem charOfNat_toNat {n : Nat} (h : n < 55296) : (Char.ofNat n).toNat = n := by
  unfold Char.ofNat
  rw [dif_pos (Or.inl h)]
  rfl

theorem uint32_le_iff (a b : UInt32) : a ≤ b ↔ a.toNat ≤ b.toNat := by
  rw [UInt32.le_def, BitVec.le_def]
  exact Iff.rfl

theorem isLower_iff (c : Char) :
    c.isLower = true ↔ 97 ≤ c.toNat ∧ c.toNat ≤ 122 := by
  unfold Char.isLower
  rw [Bool.and_eq_true, decide_eq_true_eq, decide_eq_true_eq,
    ge_iff_le, uint32_le_iff, uint32_le_iff]
  exact Iff.rfl

theorem isUpper_iff (c : Char) :
    c.isUpper = true ↔ 65 ≤ c.toNat ∧ c.toNat ≤ 90 := by
  unfold Char.isUpper
  rw [Bool.and_eq_true, decide_eq_true_eq, decide_eq_true_eq,
    ge_iff_le, uint32_le_iff, uint32_le_iff]
  exact Iff.rfl

theorem isAlpha_iff (c : Char) :
    c.isAlpha = true ↔
      (65 ≤ c.toNat ∧ c.toNat ≤ 90) ∨ (97 ≤ c.toNat ∧ c.toNat ≤ 122) := by
  unfold Char.isAlpha
  rw [Bool.or_eq_true, isUpper_iff, isLower_iff]

theorem pyIsSpace_toNat_le (c : Char) (h : pyIsSpace c = true) :
    c.toNat ≤ 32 := by
  unfold pyIsSpace at h
  simp only [Bool.or_eq_true, decide_eq_true_eq] at h
  rcases h with ((((h | h) | h) | h) | h) | h <;> subst h <;> decide

theorem toUpper_toNat (c : Char) :
    (Char.toUpper c).toNat =
      if 97 ≤ c.toNat ∧ c.toNat ≤ 122 then c.toNat - 32 else c.toNat := by
  unfold Char.toUpper
  by_cases h : 97 ≤ c.toNat ∧ c.toNat ≤ 122
  · rw [if_pos ⟨h.1, h.2⟩, if_pos h]
    exact charOfNat_toNat (by omega)
  · rw [if_neg (fun hh => h ⟨hh.1, hh.2⟩), if_neg h]

theorem toUpper_eq_self (c : Char) (h : ¬ (97 ≤ c.toNat ∧ c.toNat ≤ 122)) :
    Char.toUpper c = c := by
  unfold Char.toUpper
  rw [if_neg (fun hh => h ⟨hh.1, hh.2⟩)]

theorem pyIsSpace_toUpper (c : Char) :
    pyIsSpace (Char.toUpper c) = pyIsSpace c := by
  by_cases h : 97 ≤ c.toNat ∧ c.toNat ≤ 122
  · have h1 : pyIsSpace c = false := by
      by_cases hs : pyIsSpace c
      · exact absurd (pyIsSpace_toNat_le c hs) (by omega)
      · simpa using hs
    have h2 : pyIsSpace (Char.toUpper c) = false := by
      by_cases hs : pyIsSpace (Char.toUpper c)
      · have := pyIsSpace_toNat_le _ hs
        rw [toUpper_toNat, if_pos h] at this
        exact absurd this (by omega)
      · simpa using hs
    rw [h1, h2]
  · rw [toUpper_eq_self c h]

theorem isAlpha_toUpper (c : Char) :
    (Char.toUpper c).isAlpha = c.isAlpha := by
  by_cases h : 97 ≤ c.toNat ∧ c.toNat ≤ 122
  · have hU : (Char.toUpper c).toNat = c.toNat - 32 := by
      rw [toUpper_toNat, if_pos h]
    have h1 : (Char.toUpper c).isAlpha = true :=
      (isAlpha_iff _).mpr (Or.inl ⟨by omega, by omega⟩)
    have h2 : c.isAlpha = true := (isAlpha_iff _).mpr (Or.inr h)
    rw [h1, h2]
  · rw [toUpper_eq_self c h]


theorem pySplitAux_nil (acc : PyStr) :
    pySplitAux [] acc = if acc.isEmpty then [] else [acc.reverse] := rfl

theorem pySplitAux_cons (c : Char) (rest acc : PyStr) :
    pySplitAux (c :: rest) acc =
      if pyIsSpace c then
        if acc.isEmpty then pySplitAux rest []
        else acc.reverse :: pySplitAux rest []
      else pySplitAux rest (c :: acc) := rfl

theorem pySplit_cons_space (c : Char) (s : PyStr) (hc : pyIsSpace c = true) :
    pySplit (c :: s) = pySplit s := by
  rw [pySplit, pySplitAux_cons, if_pos hc]
  simp [pySplit]

theorem pySplitAux_acc (l : PyStr) : ∀ acc : PyStr, acc ≠ [] →
    pySplitAux l acc =
      (acc.reverse ++ l.takeWhile (fun c => !pyIsSpace c)) ::
        pySplit (l.dropWhile (fun c => !pyIsSpace c)) := by
  induction l with
  | nil =>
    intro acc hacc
    simp [pySplitAux_nil, pySplit, List.isEmpty_iff, hacc]
  | cons c rest ih =>
    intro acc hacc
    by_cases hc : pyIsSpace c
    · rw [pySplitAux_cons, if_pos hc,
        if_neg (by simpa [List.isEmpty_iff] using hacc)]
      rw [List.takeWhile_cons, List.dropWhile_cons]
      simp only [hc, Bool.not_true, Bool.false_eq_true, if_false]
      rw [pySplit_cons_space c rest hc]
      simp [pySplit]
    · have hcf : pyIsSpace c = false := by simpa using hc
      rw [pySplitAux_cons, if_neg (by simp [hcf])]
      rw [ih (c :: acc) (List.cons_ne_nil c acc)]
      rw [List.takeWhile_cons, List.dropWhile_cons]
      simp [hcf]

theorem pySplit_cons_nonspace (c : Char) (rest : PyStr)
    (hc : pyIsSpace c = false) :
    pySplit (c :: rest) =
      (c :: rest.takeWhile (fun x => !pyIsSpace x)) ::
        pySplit (rest.dropWhile (fun x => !pyIsSpace x)) := by
  rw [pySplit, pySplitAux_cons, if_neg (by simp [hc])]
  rw [pySplitAux_acc rest [c] (List.cons_ne_nil c [])]
  rfl

theorem takeWhile_word_space (u : PyStr) (s : PyStr)
    (hu : ∀ c ∈ u, pyIsSpace c = false) :
    (u ++ ' ' :: s).takeWhile (fun x => !pyIsSpace x) = u ∧
    (u ++ ' ' :: s).dropWhile (fun x => !pyIsSpace x) = ' ' :: s := by
  induction u with
  | nil => simp [List.takeWhile_cons, List.dropWhile_cons, pyIsSpace]
  | cons d u' ih =>
    have hd := hu d (List.mem_cons_self d u')
    obtain ⟨h1, h2⟩ := ih (fun c hc => hu c (List.mem_cons_of_mem d hc))
    rw [List.cons_append, List.takeWhile_cons, List.dropWhile_cons]
    simp only [hd, Bool.not_false, if_true]
    exact ⟨by rw [h1], by rw [h2]⟩

theorem pySplit_word_space (w s : PyStr)
    (hw : ∀ c ∈ w, pyIsSpace c = false) (hwne : w ≠ []) :
    pySplit (w ++ ' ' :: s) = w :: pySplit s := by
  obtain ⟨c, w', rfl⟩ := List.exists_cons_of_ne_nil hwne
  obtain ⟨h1, h2⟩ := takeWhile_word_space w' s
    (fun x hx => hw x (List.mem_cons_of_mem c hx))
  rw [List.cons_append,
    pySplit_cons_nonspace c (w' ++ ' ' :: s) (hw c (List.mem_cons_self c w')),
    h1, h2, pySplit_cons_space ' ' s (by decide)]

theorem pyStripR_prefix (s : PyStr) : pyStripR s <+: s := by
  have h := List.reverse_prefix.mpr
    (List.dropWhile_suffix (l := s.reverse) pyIsSpace)
  simpa [pyStripR] using h

theorem stripped_self (s : PyStr) (h : pyStrip s = s) :
    pyStripL s = s ∧ pyStripR s = s := by
  have hL : pyStripL s <:+ s := List.dropWhile_suffix pyIsSpace
  have hRp : pyStripR (pyStripL s) <+: pyStripL s := pyStripR_prefix _
  have hlen : s.length ≤ (pyStripL s).length := by
    have hle := hRp.length_le
    rw [show pyStripR (pyStripL s) = s from h] at hle
    exact hle
  have hLeq : pyStripL s = s :=
    hL.eq_of_length (le_antisymm hL.length_le hlen)
  refine ⟨hLeq, ?_⟩
  unfold pyStrip at h
  rw [hLeq] at h
  exact h

theorem stripped_head (c : Char) (rest : PyStr)
    (h : pyStripL (c :: rest) = c :: rest) : pyIsSpace c = false := by
  have := List.dropWhile_eq_self_iff.mp h (by simp)
  simpa using this

theorem pyStripR_of_cons (c : Char) (rest : PyStr) (hrest : rest ≠ [])
    (h : pyStripR (c :: rest) = c :: rest) : pyStripR rest = rest := by
  have h' : (c :: rest).reverse.dropWhile pyIsSpace = (c :: rest).reverse := by
    have hrev := congrArg List.reverse h
    unfold pyStripR at hrev
    simpa using hrev
  obtain ⟨d, t, hdt⟩ := List.exists_cons_of_ne_nil
    (show rest.reverse ≠ [] by simpa using hrest)
  rw [List.reverse_cons, hdt, List.cons_append] at h'
  have hd : pyIsSpace d = false := by
    have := List.dropWhile_eq_self_iff.mp h' (by simp)
    simpa using this
  unfold pyStripR
  rw [hdt, List.dropWhile_cons, hd]
  simp only [Bool.false_eq_true, if_false]
  rw [← hdt, List.reverse_reverse]

theorem validateSummary_ok_elim (v : PyStr)
    (h : validateSummary v = Except.ok v) :
    pyStrip v = v ∧ 10 ≤ v.length ∧ 2 ≤ (pySplit v).length ∧
    (pySplit v).length ≤ 2 * ((pySplit v).filter wordOk).length := by
  unfold validateSummary at h
  dsimp only at h
  split_ifs at h with h1 h2 h3
  have hv : pyStrip v = v := by
    injection h
  push_neg at h1
  refine ⟨hv, ?_, by omega, by omega⟩
  have h10 := h1.2
  rw [hv] at h10
  omega

theorem validateSummary_ok_intro (v : PyStr) (h1 : pyStrip v = v)
    (h2 : 10 ≤ v.length) (h3 : 2 ≤ (pySplit v).length)
    (h4 : (pySplit v).length ≤ 2 * ((pySplit v).filter wordOk).length) :
    validateSummary v = Except.ok v := by
  unfold validateSummary
  rw [if_neg (by
    push_neg
    constructor
    · simp [List.isEmpty_iff]
      intro he
      rw [he] at h2
      simp at h2
    · rw [h1]
      omega),
    if_neg (by omega), if_neg (by omega), h1]

theorem pyStripL_cons_nonspace (c : Char) (rest : PyStr)
    (hc : pyIsSpace c = false) : pyStripL (c :: rest) = c :: rest := by
  simp [pyStripL, List.dropWhile_cons, hc]

theorem capFirst_summary_valid (s : PyStr) (hstr : pyStrip s = s)
    (h10 : 10 ≤ s.length) (h3 : 2 ≤ (pySplit s).length)
    (h4 : (pySplit s).length ≤ 2 * ((pySplit s).filter wordOk).length) :
    validateSummary (pyCapFirst s) = Except.ok (pyCapFirst s) := by
  have hsne : s ≠ [] := by
    intro he
    rw [he] at h10
    simp at h10
  obtain ⟨c, rest, rfl⟩ := List.exists_cons_of_ne_nil hsne
  obtain ⟨hL, hR⟩ := stripped_self _ hstr
  have hc : pyIsSpace c = false := stripped_head c rest hL
  have hcu : pyIsSpace (Char.toUpper c) = false := by
    rw [pyIsSpace_toUpper]
    exact hc
  have hrest : rest ≠ [] := by
    intro he
    rw [he] at h10
    simp at h10
  show validateSummary (Char.toUpper c :: rest) =
    Except.ok (Char.toUpper c :: rest)
  have hRrest : pyStripR rest = rest := pyStripR_of_cons c rest hrest hR
  have hstr' : pyStrip (Char.toUpper c :: rest) = Char.toUpper c :: rest := by
    unfold pyStrip
    rw [pyStripL_cons_nonspace _ _ hcu]
    have := pyStripR_append [Char.toUpper c] rest hRrest hrest
    simpa using this
  have hw1 := pySplit_cons_nonspace c rest hc
  have hw2 := pySplit_cons_nonspace (Char.toUpper c) rest hcu
  have hwOkEq :
      wordOk (Char.toUpper c :: rest.takeWhile (fun x => !pyIsSpace x)) =
      wordOk (c :: rest.takeWhile (fun x => !pyIsSpace x)) := by
    unfold wordOk
    simp [isAlpha_toUpper]
  apply validateSummary_ok_intro _ hstr'
  · simpa using h10
  · rw [hw2, List.length_cons]
    rw [hw1, List.length_cons] at h3
    omega
  · rw [hw1] at h4
    rw [hw2]
    rw [List.length_cons] at h4 ⊢
    by_cases hOk : wordOk (c :: rest.takeWhile (fun x => !pyIsSpace x)) = true
    · rw [List.filter_cons_of_pos hOk, List.length_cons] at h4
      rw [List.filter_cons_of_pos (by rw [hwOkEq]; exact hOk),
        List.length_cons]
      omega
    · rw [List.filter_cons_of_neg hOk] at h4
      rw [List.filter_cons_of_neg (by rw [hwOkEq]; exact hOk)]
      omega

theorem prefixed_summary_valid (w s : PyStr)
    (hwchars : ∀ c ∈ w, pyIsSpace c = false) (hwne : w ≠ [])
    (hwOk : wordOk w = true) (hstr : pyStrip s = s)
    (h10 : 10 ≤ s.length) (h3 : 2 ≤ (pySplit s).length)
    (h4 : (pySplit s).length ≤ 2 * ((pySplit s).filter wordOk).length) :
    validateSummary (w ++ ' ' :: s) = Except.ok (w ++ ' ' :: s) := by
  have hsne : s ≠ [] := by
    intro he
    rw [he] at h10
    simp at h10
  have hLw : pyStripL w = w := by
    obtain ⟨d, t, rfl⟩ := List.exists_cons_of_ne_nil hwne
    exact pyStripL_cons_nonspace d t (hwchars d (List.mem_cons_self d t))
  have hstr' : pyStrip (w ++ ' ' :: s) = w ++ ' ' :: s := by
    unfold pyStrip
    rw [pyStripL_append w (' ' :: s) hLw hwne, List.append_cons,
      pyStripR_append (w ++ [' ']) s (stripped_self s hstr).2 hsne,
      ← List.append_cons]
  have hsplit := pySplit_word_space w s hwchars hwne
  apply validateSummary_ok_intro _ hstr'
  · rw [List.length_append, List.length_cons]
    omega
  · rw [hsplit, List.length_cons]
    omega
  · rw [hsplit, List.length_cons, List.filter_cons_of_pos hwOk,
      List.length_cons]
    omega

theorem mkJiraTask_ok (summary d prio ty assignee : PyStr)
    (aid : Option PyStr) (labels ris : Option (List PyStr))
    (hs : validateSummary summary = Except.ok summary)
    (hd : validateDescription d = Except.ok d) :
    mkJiraTask summary d prio ty assignee aid labels ris =
      Except.ok ⟨summary, d, validatePriority prio, validateType ty,
        assignee, aid, labels, ris⟩ := by
  unfold mkJiraTask
  rw [hs, hd]

theorem validateType_ne_epic_branch (t : JiraTask)
    (hvt : validateType t.«type» = t.«type») (cond : Bool) :
    validateType (if pyLower t.«type» = "epic".data then
      (if cond = true then "Bug".data else "Task".data)
    else t.«type») ≠ "Epic".data := by
  by_cases hepic : pyLower t.«type» = "epic".data
  · rw [if_pos hepic]
    by_cases hC : cond = true
    · rw [if_pos hC]
      decide
    · rw [if_neg hC]
      decide
  · rw [if_neg hepic, hvt]
    intro heq
    rw [heq] at hepic
    exact hepic (by decide)

theorem postProcessOne_ne_epic (t : JiraTask) (hv : ValidTask t) :
    ∀ t', postProcessOne t = some t' → t'.«type» ≠ "Epic".data := by
  obtain ⟨hvs, hvd, _, hvt⟩ := hv
  obtain ⟨hstr, h10, h3, h4⟩ := validateSummary_ok_elim _ hvs
  intro t' ht'
  unfold postProcessOne at ht'
  dsimp only at ht'
  rw [hstr] at ht'
  by_cases hEng : isValidEnglish t.summary = true
  · rw [if_neg (by simp [hEng])] at ht'
    by_cases hverb : actionVerbs.contains
        (match pySplit t.summary with
          | [] => ([] : PyStr)
          | w :: _ => pyLower w) = true
    · rw [if_pos hverb] at ht'
      have hsum2 := capFirst_summary_valid t.summary hstr h10 h3 h4
      rw [mkJiraTask_ok _ _ _ _ _ _ _ _ hsum2 hvd] at ht'
      dsimp only at ht'
      injection ht' with h
      subst h
      exact validateType_ne_epic_branch t hvt _
    · rw [if_neg hverb] at ht'
      by_cases hfix : (pyInStr "bug".data (pyLower t.«type») ||
          pyInStr "error".data (pyLower t.summary) ||
          pyInStr "issue".data (pyLower t.summary)) = true
      · rw [if_pos hfix] at ht'
        have hsum2 : validateSummary (pyCapFirst ("Fix ".data ++ t.summary)) =
            Except.ok (pyCapFirst ("Fix ".data ++ t.summary)) := by
          show validateSummary ("Fix".data ++ ' ' :: t.summary) =
            Except.ok ("Fix".data ++ ' ' :: t.summary)
          exact prefixed_summary_valid "Fix".data t.summary (by decide)
            (by decide) (by decide) hstr h10 h3 h4
        rw [mkJiraTask_ok _ _ _ _ _ _ _ _ hsum2 hvd] at ht'
        dsimp only at ht'
        injection ht' with h
        subst h
        exact validateType_ne_epic_branch t hvt _
      · rw [if_neg hfix] at ht'
        by_cases hres : (pyInStr "outage".data (pyLower t.summary) ||
            pyInStr "down".data (pyLower t.summary)) = true
        · rw [if_pos hres] at ht'
          have hsum2 : validateSummary
              (pyCapFirst ("Resolve ".data ++ t.summary)) =
              Except.ok (pyCapFirst ("Resolve ".data ++ t.summary)) := by
            show validateSummary ("Resolve".data ++ ' ' :: t.summary) =
              Except.ok ("Resolve".data ++ ' ' :: t.summary)
            exact prefixed_summary_valid "Resolve".data t.summary (by decide)
              (by decide) (by decide) hstr h10 h3 h4
          rw [mkJiraTask_ok _ _ _ _ _ _ _ _ hsum2 hvd] at ht'
          dsimp only at ht'
          injection ht' with h
          subst h
          exact validateType_ne_epic_branch t hvt _
        · rw [if_neg hres] at ht'
          have hsum2 : validateSummary
              (pyCapFirst ("Address ".data ++ t.summary)) =
              Except.ok (pyCapFirst ("Address ".data ++ t.summary)) := by
            show validateSummary ("Address".data ++ ' ' :: t.summary) =
              Except.ok ("Address".data ++ ' ' :: t.summary)
            exact prefixed_summary_valid "Address".data t.summary (by decide)
              (by decide) (by decide) hstr h10 h3 h4
          rw [mkJiraTask_ok _ _ _ _ _ _ _ _ hsum2 hvd] at ht'
          dsimp only at ht'
          injection ht' with h
          subst h
          exact validateType_ne_epic_branch t hvt _
  · rw [if_pos (by simp [hEng])] at ht'
    exact absurd ht' (by simp)

theorem postProcessTasks_cons (t : JiraTask) (rest : List JiraTask) :
    postProcessTasks (t :: rest) =
      match postProcessOne t with
      | none => postProcessTasks rest
      | some t' => t' :: postProcessTasks rest := rfl

/-- Claim C6: `_post_process_tasks` never emits a task of type `Epic` when
its input consists of pydantic-validated `JiraTaskSuggestion`s, and the
round-trip example — a suggestion constructed with `type="epic"` and
`summary="bug in login flow"` — comes out with type `Bug` (∈ {Bug, Task})
and summary `"Address bug in login flow"`, which starts with the
capitalized action verb `Address`. -/
theorem post_process_tasks_no_epic (tasks : List JiraTask)
    (hvalid : ∀ t ∈ tasks, ValidTask t) :
    (∀ t' ∈ postProcessTasks tasks, t'.«type» ≠ "Epic".data) ∧
    postProcessTasks [⟨"bug in login flow".data,
        "Login page is broken for all".data,
        validatePriority "Medium".data, validateType "epic".data,
        "Unassigned".data, none, none, none⟩] =
      [⟨"Address bug in login flow".data,
        "Login page is broken for all".data,
        "Medium".data, "Bug".data, "Unassigned".data, none, none, none⟩] ∧
    (pySplit "Address bug in login flow".data).headD [] = "Address".data ∧
    pyLower "Address".data ∈ actionVerbs ∧
    ("Address bug in login flow".data.headD ' ').isUpper = true := by
  refine ⟨?_, by rfl, by decide, by decide, by decide⟩
  induction tasks with
  | nil =>
    intro t' ht'
    simp [postProcessTasks] at ht'
  | cons t rest ih =>
    intro t' ht'
    have hvt := hvalid t (List.mem_cons_self t rest)
    have hvrest : ∀ x ∈ rest, ValidTask x :=
      fun x hx => hvalid x (List.mem_cons_of_mem t hx)
    rw [postProcessTasks_cons] at ht'
    cases hone : postProcessOne t with
    | none =>
      rw [hone] at ht'
      exact ih hvrest t' ht'
    | some t'' =>
      rw [hone] at ht'
      rcases List.mem_cons.mp ht' with h | h
      · subst h
        exact postProcessOne_ne_epic t hvt t' hone
      · exact ih hvrest t' h

/-- Concrete instance of `post_process_tasks_no_epic` on the singleton list
holding the claim's example suggestion. -/
theorem post_process_tasks_no_epic_witness :
    (∀ t' ∈ postProcessTasks [⟨"bug in login flow".data,
        "Login page is broken for all".data,
        validatePriority "Medium".data, validateType "epic".data,
        "Unassigned".data, none, none, none⟩],
      t'.«type» ≠ "Epic".data) ∧
    postProcessTasks [⟨"bug in login flow".data,
        "Login page is broken for all".data,
        validatePriority "Medium".data, validateType "epic".data,
        "Unassigned".data, none, none, none⟩] =
      [⟨"Address bug in login flow".data,
        "Login page is broken for all".data,
        "Medium".data, "Bug".data, "Unassigned".data, none, none, none⟩] ∧
    (pySplit "Address bug in login flow".data).headD [] = "Address".data ∧
    pyLower "Address".data ∈ actionVerbs ∧
    ("Address bug in login flow".data.headD ' ').isUpper = true :=
  post_process_tasks_no_epic
    [⟨"bug in login flow".data, "Login page is broken for all".data,
      validatePriority "Medium".data, validateType "epic".data,
      "Unassigned".data, none, none, none⟩]
    (by
      intro t ht
      rw [List.mem_singleton] at ht
      subst ht
      exact ⟨rfl, rfl, rfl, rfl⟩)
